import Mathlib

/-!
Verification development for the deterministic core engines of the
Sentinel Scout triage service:

* entity extraction        (src/tools/extract_entities.js)
* PII redaction            (src/tools/redact.js)
* perceptual image hashing (src/tools/phash_image.js)

Strings are modelled as lists of characters.  The JavaScript regular
expressions used by the source are embedded as abstract syntax trees
together with a backtracking matcher that follows the ECMAScript
semantics relied upon by the code: leftmost match, greedy quantifiers
with backtracking, the empty-iteration exit rule for quantifiers,
anchors without the multiline flag, word boundaries, capture groups and
case-insensitive matching.  The matcher carries a fuel argument that
bounds the recursion depth (regex nesting plus quantifier iterations);
the constant below is far above what any input considered here needs.

Unicode-sensitive pieces are modelled on the character ranges the
source's inputs exercise: toLowerCase and the letter classes \p{L} and
\p{Lu} are mapped to their ASCII parts, as noted next to each
definition.  The white-space class \s is modelled in full.
-/

abbrev Str := List Char

/-- Character range test on code points. -/
def inRange (lo hi n : Nat) : Bool := decide (lo ≤ n) && decide (n ≤ hi)

def isAsciiLowerCh (c : Char) : Bool := inRange 97 122 c.toNat

def isAsciiUpperCh (c : Char) : Bool := inRange 65 90 c.toNat

def isDigitCh (c : Char) : Bool := inRange 48 57 c.toNat

/-- ECMAScript \w : [A-Za-z0-9_]. -/
def isWordCh (c : Char) : Bool := isAsciiLowerCh c || isAsciiUpperCh c || isDigitCh c || c == '_'

/-- JavaScript toLowerCase restricted to the ASCII range used by the inputs
considered in this development. -/
def jsLower (c : Char) : Char := if isAsciiUpperCh c then Char.ofNat (c.toNat + 32) else c

/-- ECMAScript \s : white space and line terminators. -/
def isJsSpace (c : Char) : Bool :=
  c == ' ' || c == Char.ofNat 9 || c == Char.ofNat 10 || c == Char.ofNat 11 ||
  c == Char.ofNat 12 || c == Char.ofNat 13 || c == Char.ofNat 160 ||
  c == Char.ofNat 0x1680 || (inRange 0x2000 0x200a c.toNat) ||
  c == Char.ofNat 0x2028 || c == Char.ofNat 0x2029 || c == Char.ofNat 0x202f ||
  c == Char.ofNat 0x205f || c == Char.ofNat 0x3000 || c == Char.ofNat 0xfeff

/-- Abstract syntax of the regular-expression fragment used by the source:
character classes, sequencing, alternation, greedy star, bounded greedy
repetition, greedy option, numbered capture groups, the anchors ^ and $
(no multiline flag is used anywhere in the source) and the word
boundary \b. -/
inductive RE where
  | eps  : RE
  | cls  : (Char → Bool) → RE
  | seq  : RE → RE → RE
  | alt  : RE → RE → RE
  | star : RE → RE
  | rep  : RE → Nat → Nat → RE
  | opt  : RE → RE
  | grp  : Nat → RE → RE
  | bol  : RE
  | eol  : RE
  | wb   : RE

/-- Capture list: (group number, start index, end index), most recent first. -/
abbrev Caps := List (Nat × Nat × Nat)

/-- Recursion-depth fuel for the matcher; generous for every input considered
in this development (depth is bounded by regex size plus match length). -/
def FUEL : Nat := 2000

/-- Backtracking matcher in continuation-passing style, following the
ECMAScript matching semantics.  `reMatch s fuel re i caps k` tries to match
`re` at index `i` of `s` and calls the continuation `k` with the index after
the match and the updated capture list.  Alternation and option try their
first possibility first; star and bounded repetition are greedy and an
iteration that consumes nothing terminates the loop (the ECMAScript
empty-check).  The fuel only bounds recursion depth. -/
def reMatch (s : Str) : Nat → RE → Nat → Caps → (Nat → Caps → Option (Nat × Caps)) → Option (Nat × Caps)
  | 0, _, _, _, _ => none
  | Nat.succ fuel, re, i, caps, k =>
    match re with
    | .eps => k i caps
    | .cls p =>
      match s.get? i with
      | some c => if p c then k (i + 1) caps else none
      | none => none
    | .seq a b => reMatch s fuel a i caps (fun j cs => reMatch s fuel b j cs k)
    | .alt a b =>
      match reMatch s fuel a i caps k with
      | some r => some r
      | none => reMatch s fuel b i caps k
    | .opt a =>
      match reMatch s fuel a i caps k with
      | some r => some r
      | none => k i caps
    | .star a =>
      match reMatch s fuel a i caps
          (fun j cs => if i < j then reMatch s fuel (.star a) j cs k else none) with
      | some r => some r
      | none => k i caps
    | .rep a lo hi =>
      match lo, hi with
      | 0, 0 => k i caps
      | 0, Nat.succ h =>
        match reMatch s fuel a i caps
            (fun j cs => if i < j then reMatch s fuel (.rep a 0 h) j cs k else none) with
        | some r => some r
        | none => k i caps
      | Nat.succ l, h => reMatch s fuel a i caps (fun j cs => reMatch s fuel (.rep a l (h - 1)) j cs k)
    | .grp n a => reMatch s fuel a i caps (fun j cs => k j ((n, i, j) :: cs))
    | .bol => if i = 0 then k i caps else none
    | .eol => if i = s.length then k i caps else none
    | .wb =>
      let wPrev : Bool :=
        match i with
        | 0 => false
        | Nat.succ ip =>
          match s.get? ip with
          | some c => isWordCh c
          | none => false
      let wCur : Bool :=
        match s.get? i with
        | some c => isWordCh c
        | none => false
      if wPrev != wCur then k i caps else none

/-- Scan for the leftmost match at or after `start`, trying at most `steps`
start positions (RegExp.prototype.exec semantics). -/
def reSearch (s : Str) (re : RE) : Nat → Nat → Option (Nat × Nat × Caps)
  | _, 0 => none
  | start, Nat.succ steps =>
    match reMatch s FUEL re start [] (fun j cs => some (j, cs)) with
    | some (e, cs) => some (start, e, cs)
    | none => reSearch s re (start + 1) steps

/-- Leftmost match of `re` in `s` at or after `start`. -/
def reFind (s : Str) (re : RE) (start : Nat) : Option (Nat × Nat × Caps) :=
  reSearch s re start (s.length + 1 - start)

/-- RegExp.prototype.test. -/
def reTest (re : RE) (s : Str) : Bool := (reFind s re 0).isSome

/-- Successive matches of a global regex: each search resumes at the end of
the previous match, advancing by one position after an empty match
(lastIndex handling of String.prototype.matchAll / global replace). -/
def matchAllFrom (s : Str) (re : RE) : Nat → Nat → List (Nat × Nat × Caps)
  | _, 0 => []
  | start, Nat.succ rounds =>
    match reFind s re start with
    | none => []
    | some (b, e, cs) => (b, e, cs) :: matchAllFrom s re (if b < e then e else e + 1) rounds

/-- All matches of a global regex, in order. -/
def matchAll (re : RE) (s : Str) : List (Nat × Nat × Caps) := matchAllFrom s re 0 (s.length + 1)

/-- Substring of `s` from index `b` (inclusive) to `e` (exclusive). -/
def sub (s : Str) (b e : Nat) : Str := (s.take e).drop b

/-- Text of a numbered capture group; the empty string when the group is
absent (the source only reads groups that always participate). -/
def capStr (s : Str) (cs : Caps) (n : Nat) : Str :=
  match cs.find? (fun t => t.1 == n) with
  | some t => sub s t.2.1 t.2.2
  | none => []

/-- Splice replacement text over a list of matches: the text between matches
is kept, each matched span [b, e) is replaced by `f b e caps`. -/
def spliceAll (s : Str) (f : Nat → Nat → Caps → Str) : Nat → List (Nat × Nat × Caps) → Str
  | pos, [] => s.drop pos
  | pos, (b, e, cs) :: rest => sub s pos b ++ f b e cs ++ spliceAll s f e rest

/-- String.prototype.replace with a global regex and a function replacement:
the function receives the matched text and a resolver for the capture
groups, as the source callbacks do. -/
def replaceFn (re : RE) (f : Str → (Nat → Str) → Str) (s : Str) : Str :=
  spliceAll s (fun b e cs => f (sub s b e) (fun n => capStr s cs n)) 0 (matchAll re s)

/-- Expansion of a string replacement: the source's name-masking replacement
strings come from regexes with no capture groups, for which ECMAScript
leaves every dollar-digit pattern literal; the remaining special patterns
are expanded here. -/
def expandRepl (s : Str) (b e : Nat) : Str → Str
  | [] => []
  | c :: rest =>
    if c == '$' then
      match rest with
      | [] => [c]
      | d :: rest2 =>
        if d == '$' then '$' :: expandRepl s b e rest2
        else if d == '&' then sub s b e ++ expandRepl s b e rest2
        else if d == Char.ofNat 96 then s.take b ++ expandRepl s b e rest2
        else if d == Char.ofNat 39 then s.drop e ++ expandRepl s b e rest2
        else c :: expandRepl s b e (d :: rest2)
    else c :: expandRepl s b e rest

/-- String.prototype.replace with a global regex and a string replacement. -/
def replaceAllStr (re : RE) (repl : Str) (s : Str) : Str :=
  spliceAll s (fun b e _ => expandRepl s b e repl) 0 (matchAll re s)

/-! ## Regular expressions of the source, as ASTs

Class predicates are written with the case-insensitivity flag of the
source regex already folded in. -/

/-- Literal character (no flag). -/
def chs (c : Char) : RE := .cls (fun d => d == c)

/-- Literal character under the i flag. -/
def chsCI (c : Char) : RE := .cls (fun d => jsLower d == jsLower c)

/-- Literal word: sequence of literal characters, case-insensitive when
`ci` is set.  Used for the name regexes, where the source first escapes
the word so that every character is matched literally. -/
def lit (ci : Bool) (w : Str) : RE :=
  w.foldr (fun c acc => RE.seq (.cls (fun d => if ci then jsLower d == jsLower c else d == c)) acc) .eps

/-- One or more (greedy). -/
def rplus (a : RE) : RE := .seq a (.star a)

/-- `n` mandatory copies of `a` followed by `tail`. -/
def ntimes : Nat → RE → RE → RE
  | 0, _, t => t
  | Nat.succ n, a, t => .seq a (ntimes n a t)

/-- At least `n` copies (greedy), as in a {n,} quantifier. -/
def atLeast (n : Nat) (a : RE) : RE := ntimes n a (.star a)

/-- [a-z0-9._%+\-] under the i flag. -/
def emailLocalCls (c : Char) : Bool :=
  isAsciiLowerCh c || isAsciiUpperCh c || isDigitCh c ||
  c == '.' || c == '_' || c == '%' || c == '+' || c == '-'

/-- [a-z0-9.\-] under the i flag. -/
def emailDomCls (c : Char) : Bool :=
  isAsciiLowerCh c || isAsciiUpperCh c || isDigitCh c || c == '.' || c == '-'

/-- [a-z] under the i flag. -/
def alphaCls (c : Char) : Bool := isAsciiLowerCh c || isAsciiUpperCh c

/-- [a-z0-9\-] under the i flag. -/
def emailDomCls2 (c : Char) : Bool := isAsciiLowerCh c || isAsciiUpperCh c || isDigitCh c || c == '-'

/-- [\s\-\.] (phone separators). -/
def sepCls (c : Char) : Bool := isJsSpace c || c == '-' || c == '.'

/-- [A-Za-z0-9_\.\-] (handle characters). -/
def handleCls (c : Char) : Bool :=
  isAsciiLowerCh c || isAsciiUpperCh c || isDigitCh c || c == '_' || c == '.' || c == '-'

/-- [\w.-] (URL host characters). -/
def urlHostCls (c : Char) : Bool := isWordCh c || c == '.' || c == '-'

/-- URL path characters [\w\-._~:/?#\[\]@!$&'()*+,;=%]. -/
def urlPathCls (c : Char) : Bool :=
  isWordCh c || c == '-' || c == '.' || c == '_' || c == '~' || c == ':' || c == '/' ||
  c == '?' || c == '#' || c == '[' || c == ']' || c == '@' || c == '!' || c == '$' ||
  c == '&' || c == Char.ofNat 39 || c == '(' || c == ')' || c == '*' || c == '+' ||
  c == ',' || c == ';' || c == '=' || c == '%'

/-- redact.js EMAIL_RE = /([a-z0-9._%+\-]+)@([a-z0-9.\-]+\.[a-z]{2,})/gi -/
def EMAIL_RE : RE :=
  .seq (.grp 1 (rplus (.cls emailLocalCls)))
    (.seq (chs '@')
      (.grp 2 (.seq (rplus (.cls emailDomCls)) (.seq (chs '.') (atLeast 2 (.cls alphaCls))))))

/-- extract_entities.js EMAIL_RE =
/\b([a-z0-9._%+\-]+)@([a-z0-9\-]+(?:\.[a-z0-9\-]+)+)\b/gi -/
def EMAIL_RE_X : RE :=
  .seq .wb
    (.seq (.grp 1 (rplus (.cls emailLocalCls)))
      (.seq (chs '@')
        (.seq (.grp 2 (.seq (rplus (.cls emailDomCls2))
                        (rplus (.seq (chs '.') (rplus (.cls emailDomCls2))))))
          .wb)))

/-- PHONE_RE (same text in redact.js and extract_entities.js) =
/(?:(?:\+|00)\d{1,3}[\s\-\.]*)?(?:\(\d{2,4}\)[\s\-\.]*)?\d{2,4}(?:[\s\-\.]?\d){5,10}/g -/
def PHONE_RE : RE :=
  .seq (.opt (.seq (.alt (chs '+') (.seq (chs '0') (chs '0')))
          (.seq (.rep (.cls isDigitCh) 1 3) (.star (.cls sepCls)))))
    (.seq (.opt (.seq (chs '(')
            (.seq (.rep (.cls isDigitCh) 2 4) (.seq (chs ')') (.star (.cls sepCls))))))
      (.seq (.rep (.cls isDigitCh) 2 4)
        (.rep (.seq (.opt (.cls sepCls)) (.cls isDigitCh)) 5 10)))

/-- redact.js URL_RE = /https?:\/\/[\w.-]+(?:\/[...]*)?/gi -/
def URL_RE : RE :=
  .seq (lit true ( "http").toList)
    (.seq (.opt (chsCI 's'))
      (.seq (lit false ( "://").toList)
        (.seq (rplus (.cls urlHostCls))
          (.opt (.seq (chs '/') (.star (.cls urlPathCls)))))))

/-- HANDLE_RE (same text in redact.js and extract_entities.js) =
/(^|\s)@([A-Za-z0-9_\.\-]{3,30})\b/g -/
def HANDLE_RE : RE :=
  .seq (.grp 1 (.alt .bol (.cls isJsSpace)))
    (.seq (chs '@') (.seq (.grp 2 (.rep (.cls handleCls) 3 30)) .wb))

/-- redact.js handle shape check /^@?([A-Za-z0-9_\.\-]{1,64})$/ -/
def HANDLE_SHAPE_RE : RE :=
  .seq .bol (.seq (.opt (chs '@')) (.seq (.grp 1 (.rep (.cls handleCls) 1 64)) .eol))

/-- extract_entities.js WORD_RE = /[\p{L}][\p{L}'\-]{0,}\.?/gu, with the
letter class modelled on its ASCII part. -/
def WORD_RE : RE :=
  .seq (.cls alphaCls)
    (.seq (.star (.cls (fun c => alphaCls c || c == Char.ofNat 39 || c == '-')))
      (.opt (chs '.')))

/-- extract_entities.js isCap test /^(\p{Lu}[\p{L}'\-]{1,})$/u, uppercase
letter class modelled on its ASCII part. -/
def CAP_RE : RE :=
  .seq .bol
    (.seq (.cls isAsciiUpperCh)
      (.seq (atLeast 1 (.cls (fun c => alphaCls c || c == Char.ofNat 39 || c == '-'))) .eol))

/-- extract_entities.js stop-word test
/^(?:and|or|the|of|for|in|on|to|from|with|by|de|da|von|van|bin|al)$/i -/
def STOP_RE : RE :=
  .seq .bol
    (.seq
      (List.foldr (fun (w : Str) acc => RE.alt (lit true w) acc) (lit true ( "al").toList)
        [( "and").toList, ( "or").toList, ( "the").toList, ( "of").toList, ( "for").toList,
         ( "in").toList, ( "on").toList, ( "to").toList, ( "from").toList, ( "with").toList,
         ( "by").toList, ( "de").toList, ( "da").toList, ( "von").toList, ( "van").toList,
         ( "bin").toList])
      .eol)

/-- extract_entities.js line-skip test /https?:\/\//i -/
def URL_TEST_RE : RE :=
  .seq (lit true ( "http").toList) (.seq (.opt (chsCI 's')) (lit false ( "://").toList))

/-- extract_entities.js line-skip test /@\w/ -/
def AT_WORD_RE : RE := .seq (chs '@') (.cls isWordCh)

/-! ## Shared leaf utilities (both source modules define the same two) -/

/-- Accumulator pass behind `uniq`: keep the first occurrence of each value,
in order (iteration order of a JavaScript Set is insertion order). -/
def uniqAux : List Str → List Str → List Str
  | _, [] => []
  | seen, x :: xs => if x ∈ seen then uniqAux seen xs else x :: uniqAux (x :: seen) xs

/-- uniq(arr) = Array.from(new Set(arr.filter(Boolean))): drop empty strings,
then deduplicate keeping first occurrences in order. -/
def uniq (l : List Str) : List Str := uniqAux [] (l.filter (fun s => !s.isEmpty))

/-- Specification-side rendering of insertion-order deduplication, named
from the spec's words "insertion order preserved, no duplicate values":
the output keeps each value's first occurrence, in source order — the
head is kept and all of its later copies are deleted before recursing.
To be compared with the source-side `uniq`. -/
def firstSeenDedup : List Str → List Str
  | [] => []
  | x :: xs => x :: firstSeenDedup (xs.filter (fun y => y ≠ x))
termination_by l => l.length
decreasing_by
  simp only [List.length_cons]
  exact Nat.lt_succ_of_le (List.length_filter_le _ _)

/-- onlyDigits(s) = s.replace(/\D+/g, ReplEmpty): keep exactly the digits. -/
def onlyDigits (s : Str) : Str := s.filter isDigitCh

/-- split(/\n|\r/): split at every line-feed or carriage-return character. -/
def splitLinesAux (acc : Str) : Str → List Str
  | [] => [acc.reverse]
  | c :: rest =>
    if c == Char.ofNat 10 || c == Char.ofNat 13 then acc.reverse :: splitLinesAux [] rest
    else splitLinesAux (c :: acc) rest

def splitLines (s : Str) : List Str := splitLinesAux [] s

/-- split(/\s+/) modelled by splitting at every white-space character; the
two differ only in the empty fragments produced inside a run, and the one
caller (maskName) filters empty fragments away immediately. -/
def splitWsAux (acc : Str) : Str → List Str
  | [] => [acc.reverse]
  | c :: rest =>
    if isJsSpace c then acc.reverse :: splitWsAux [] rest
    else splitWsAux (c :: acc) rest

def splitWs (s : Str) : List Str := splitWsAux [] s

/-- String.prototype.trim. -/
def trimStr (s : Str) : Str := ((s.dropWhile isJsSpace).reverse.dropWhile isJsSpace).reverse

/-- replace(/\.+$/, ReplEmpty): strip one trailing run of dots. -/
def stripTrailingDots (s : Str) : Str := (s.reverse.dropWhile (fun c => c == '.')).reverse

/-! ## Entity extraction engine (src/tools/extract_entities.js) -/

/-- normalizeEmail(m): lower-cased local part and domain of the two capture
groups, joined by the at sign (toLowerCase modelled on ASCII). -/
def normalizeEmail (s : Str) (cs : Caps) : Str :=
  (capStr s cs 1).map jsLower ++ '@' :: (capStr s cs 2).map jsLower

/-- plausiblyPhone(raw): reject unless the digit count is in [7, 16];
keep a leading plus when raw starts with optional white space and a plus
(the source's /^\s*\+/ test). -/
def plausiblyPhone (raw : Str) : Option Str :=
  let digits := onlyDigits raw
  if digits.length < 7 ∨ 16 < digits.length then none
  else some ((if (raw.dropWhile isJsSpace).head? = some '+' then [ '+' ] else []) ++ digits)

/-- normalizeHandle(prefixPart, user): drop trailing dots from the user part
and require at least 3 remaining characters. -/
def normalizeHandle (user : Str) : Option Str :=
  let u := stripTrailingDots user
  if u.length < 3 then none else some ('@' :: u)

/-- Words of a line: trimmed.match(WORD_RE) as matched substrings. -/
def wordsOf (line : Str) : List Str := (matchAll WORD_RE line).map (fun t => sub line t.1 t.2.1)

/-- isCap(w) of extractNameCandidates. -/
def isCapW (w : Str) : Bool := reTest CAP_RE w

/-- isStop(w) of extractNameCandidates. -/
def isStopW (w : Str) : Bool := reTest STOP_RE w

/-- Inner scan of extractNameCandidates over the word list of one line:
a run of two capitalized non-stop words emits the 2-word candidate, plus
the 3-word candidate when a third capitalized non-stop word follows; after
a hit the scan advances two positions, otherwise one. -/
def scanWords : List Str → List Str
  | [] => []
  | [_] => []
  | w1 :: w2 :: rest =>
    if isCapW w1 && isCapW w2 && !isStopW w1 && !isStopW w2 then
      let cand2 := w1 ++ ' ' :: w2
      (match rest with
       | w3 :: _ => if isCapW w3 && !isStopW w3 then [cand2, cand2 ++ ' ' :: w3] else [cand2]
       | [] => [cand2]) ++ scanWords rest
    else scanWords (w2 :: rest)

/-- Line loop of extractNameCandidates: skip blank lines and lines holding a
URL scheme or an at-sign followed by a word character; stop once `maxN`
candidates are collected. -/
def collectNames (maxN : Nat) : List Str → List Str → List Str
  | [], out => out
  | line :: rest, out =>
    let t := trimStr line
    if t.isEmpty then collectNames maxN rest out
    else if reTest URL_TEST_RE t || reTest AT_WORD_RE t then collectNames maxN rest out
    else
      let out2 := out ++ scanWords (wordsOf t)
      if maxN ≤ out2.length then out2 else collectNames maxN rest out2

/-- extractNameCandidates(text, max = 20). -/
def extractNameCandidates (text : Str) (maxN : Nat) : List Str :=
  if text.isEmpty then []
  else (uniq (collectNames maxN ((splitLines text).take 500) [])).take maxN

structure EntitySet where
  emails : List Str
  phones : List Str
  handles : List Str
  names : List Str
deriving DecidableEq

/-- extractEntities({ text }): `none` models a missing text field, which the
source coerces to the empty string. -/
def extractEntities (text : Option Str) : EntitySet :=
  let raw := text.getD []
  let emails := (matchAll EMAIL_RE_X raw).map (fun t => normalizeEmail raw t.2.2)
  let phones := (matchAll PHONE_RE raw).filterMap (fun t => plausiblyPhone (sub raw t.1 t.2.1))
  let redactedEmails := replaceFn EMAIL_RE_X (fun _ _ => [ ' ' ]) raw
  let handles := (matchAll HANDLE_RE redactedEmails).filterMap
    (fun t => normalizeHandle (capStr redactedEmails t.2.2 2))
  let names := extractNameCandidates raw 20
  ⟨uniq emails, uniq phones, uniq handles, uniq names⟩

/-! ## PII redaction engine (src/tools/redact.js) -/

inductive RMode where
  | normal : RMode
  | strict : RMode
deriving DecidableEq

/-- maskUrl(). -/
def maskUrlStr : Str := ( "[REDACTED_URL]").toList

/-- maskEmail(_, local, domain): keep at most the first two local-part
characters, star the rest, keep the domain. -/
def maskEmailF (loc dom : Str) : Str :=
  let keep := min 2 loc.length
  loc.take keep ++ List.replicate (loc.length - keep) '*' ++ '@' :: dom

/-- formatMaskedPhone(raw): placeholder keeping the last two digits, or the
fully generic placeholder when no digit is present. -/
def formatMaskedPhone (raw : Str) : Str :=
  let digits := onlyDigits raw
  if digits.isEmpty then ( "[REDACTED_PHONE]").toList
  else ( "[REDACTED_PHONE:••").toList ++ digits.drop (digits.length - 2) ++ [ ']' ]

/-- maskHandle(match, pfx, user): keep the leading boundary character and the
first user character, star the rest. -/
def maskHandleF (pfx user : Str) : Str :=
  let keep := min 1 user.length
  pfx ++ '@' :: (user.take keep ++ List.replicate (user.length - keep) '*')

/-- maskName(n): initial letter of each white-space-separated word followed
by three stars. -/
def maskName (n : Str) : Str :=
  let parts := (splitWs (trimStr n)).filter (fun p => !p.isEmpty)
  if parts.isEmpty then ( "[REDACTED_NAME]").toList
  else List.intercalate [ ' ' ] (parts.map (fun p => if p.isEmpty then [] else p.take 1 ++ ( "***").toList))

/-- Compiled name regex: the source escapes the name so every character is
literal, then matches with word boundaries under the gi flags. -/
def nameRE (n : Str) : RE := .seq .wb (.seq (lit true n) .wb)

/-- The strict-mode name loop of redactText: for each non-empty name, replace
every match of its word-bounded literal regex by the fixed string maskName(n)
(a replacement string, expanded by the ECMAScript dollar rules). -/
def applyNameMasks (names : List Str) (t : Str) : Str :=
  names.foldl (fun out n => if n.isEmpty then out else replaceAllStr (nameRE n) (maskName n) out) t

/-- redactText(text, { mode, names }): URL, email, phone and handle masking
in this order, then the strict-mode name loop. -/
def redactText (text : Str) (mode : RMode) (names : List Str) : Str :=
  if text.isEmpty then []
  else
    let o1 := replaceFn URL_RE (fun _ _ => maskUrlStr) text
    let o2 := replaceFn EMAIL_RE (fun _ g => maskEmailF (g 1) (g 2)) o1
    let o3 := replaceFn PHONE_RE (fun m _ => formatMaskedPhone m) o2
    let o4 := replaceFn HANDLE_RE (fun _ g => maskHandleF (g 1) (g 2)) o3
    if mode = RMode.strict ∧ !names.isEmpty then applyNameMasks names o4 else o4

/-- Entity record passed to redactContent: `none` models an absent field
(the source tests each with Array.isArray). -/
structure REntities where
  emails : Option (List Str)
  phones : Option (List Str)
  handles : Option (List Str)
  names : Option (List Str)
deriving DecidableEq

/-- The handle branch of redactEntities: a value failing the shape check
becomes the generic placeholder, otherwise keep the first user character. -/
def maskHandleValue (h : Str) : Str :=
  match reFind (trimStr h) HANDLE_SHAPE_RE 0 with
  | none => ( "@***").toList
  | some t =>
    let user := capStr (trimStr h) t.2.2 1
    '@' :: (user.take (min 1 user.length) ++ List.replicate (user.length - min 1 user.length) '*')

/-- redactEntities(entities, mode): the same masking transforms applied to
the stored values of each present category; names survive only in strict
mode. -/
def redactEntities (es : REntities) (mode : RMode) : REntities :=
  { emails := es.emails.map (fun l => (uniq l).map (replaceFn EMAIL_RE (fun _ g => maskEmailF (g 1) (g 2)))),
    phones := es.phones.map (fun l => (uniq l).map formatMaskedPhone),
    handles := es.handles.map (fun l => (uniq l).map maskHandleValue),
    names := if mode = RMode.strict then es.names.map (fun l => (uniq l).map maskName) else none }

structure RedactResult where
  safe_text : Str
  safe_entities : REntities
deriving DecidableEq

/-- redactContent({ text, entities, mode }). -/
def redactContent (text : Str) (es : REntities) (mode : RMode) : RedactResult :=
  { safe_text := redactText text mode (es.names.getD []),
    safe_entities := redactEntities es mode }

/-! ## Perceptual hashing engine (src/tools/phash_image.js)

The image decoding, resizing and the 2-D DCT of the source work over
floating-point values with irrational cosine coefficients; the claims
about this engine concern the stages after the transform (block
selection, median thresholding, bit emission and hex packing), whose
behaviour does not depend on the numeric values.  They are therefore
modelled over an arbitrary rational-valued transformed matrix, accessed
as the source accesses `dct[y][x]`. -/

/-- medianOf(arr): sort ascending (the numeric comparator of the source),
middle element for odd length, average of the two middle elements for even
length, 0 for the empty list. -/
def medianOf (arr : List ℚ) : ℚ :=
  if arr.length = 0 then 0
  else
    let a := List.insertionSort (fun m n => m ≤ n) arr
    let mid := arr.length / 2
    if arr.length % 2 = 1 then a.getD mid 0 else (a.getD (mid - 1) 0 + a.getD mid 0) / 2

/-- block.flat(): the top-left 8 x 8 block of the transformed matrix in
row-major order. -/
def phashCoeffs (dct : Nat → Nat → ℚ) : List ℚ :=
  ((List.range 8).map (fun y => (List.range 8).map (fun x => dct y x))).flatten

/-- The 64 hash bits: threshold every block coefficient (the DC term
included) against the median of coeffs.slice(1). -/
def phashBits (dct : Nat → Nat → ℚ) : List Bool :=
  let coeffs := phashCoeffs dct
  let median := medianOf (coeffs.drop 1)
  coeffs.map (fun v => decide (median < v))

/-- The bit string built by the source's loop. -/
def phashBitChars (dct : Nat → Nat → ℚ) : Str :=
  (phashBits dct).map (fun b => if b then '1' else '0')

/-- bits.padEnd(Math.ceil(bits.length / 4) * 4, Zero). -/
def padEnd4 (bits : Str) : Str :=
  bits ++ List.replicate ((bits.length + 3) / 4 * 4 - bits.length) '0'

/-- Four-character slices of the padded bit string. -/
def chunks4 : Str → List Str
  | [] => []
  | [a] => [[a]]
  | [a, b] => [[a, b]]
  | [a, b, c] => [[a, b, c]]
  | a :: b :: c :: d :: rest => [a, b, c, d] :: chunks4 rest

/-- One step of parseInt(chunk, 2) over the binary digit characters the
source feeds it. -/
def nibbleStep (a : Nat) (c : Char) : Nat := 2 * a + (if c == '1' then 1 else 0)

def nibbleVal (chunk : Str) : Nat := chunk.foldl nibbleStep 0

/-- Number.prototype.toString(16) for one nibble: lowercase hex digit. -/
def hexDigitChar (n : Nat) : Char := if n < 10 then Char.ofNat (48 + n) else Char.ofNat (87 + n)

/-- binToHex(bits): nibble-wise conversion, then slice(0, 16) and
padStart(16, Zero). -/
def binToHex (bits : Str) : Str :=
  let hex := (chunks4 (padEnd4 bits)).map (fun ch => hexDigitChar (nibbleVal ch))
  List.replicate (16 - (hex.take 16).length) '0' ++ hex.take 16

structure PhashResult where
  hash : Str
  algo : Str
  size : Nat
deriving DecidableEq

/-- phashImage, from the transformed matrix on. -/
def phashImage (dct : Nat → Nat → ℚ) : PhashResult :=
  { hash := binToHex (phashBitChars dct), algo := ( "phash-dct-8x8").toList, size := 64 }

/-! ## Helper lemmas -/

theorem uniqAux_sublist : ∀ (l seen : List Str), List.Sublist (uniqAux seen l) l := by
  intro l
  induction l with
  | nil => intro seen; simp [uniqAux]
  | cons x xs ih =>
    intro seen
    by_cases h : x ∈ seen
    · simp only [uniqAux, if_pos h]
      exact (ih seen).cons x
    · simp only [uniqAux, if_neg h]
      exact (ih (x :: seen)).cons₂ x

theorem uniqAux_mem_not_seen : ∀ (l seen : List Str) (y : Str), y ∈ uniqAux seen l → y ∉ seen := by
  intro l
  induction l with
  | nil => intro seen y h; simp [uniqAux] at h
  | cons x xs ih =>
    intro seen y h
    by_cases hx : x ∈ seen
    · simp only [uniqAux, if_pos hx] at h
      exact ih seen y h
    · simp only [uniqAux, if_neg hx] at h
      rcases List.mem_cons.mp h with rfl | h2
      · exact hx
      · intro hseen
        exact ih (x :: seen) y h2 (List.mem_cons_of_mem x hseen)

theorem uniqAux_nodup : ∀ (l seen : List Str), (uniqAux seen l).Nodup := by
  intro l
  induction l with
  | nil => intro seen; simp [uniqAux]
  | cons x xs ih =>
    intro seen
    by_cases hx : x ∈ seen
    · simp only [uniqAux, if_pos hx]; exact ih seen
    · simp only [uniqAux, if_neg hx]
      refine List.nodup_cons.mpr ⟨?_, ih (x :: seen)⟩
      intro hmem
      exact uniqAux_mem_not_seen xs (x :: seen) x hmem (List.mem_cons_self x seen)

theorem uniq_nodup (l : List Str) : (uniq l).Nodup := uniqAux_nodup _ _

theorem uniq_sublist (l : List Str) : List.Sublist (uniq l) (l.filter (fun s => !s.isEmpty)) :=
  uniqAux_sublist _ _

theorem uniq_mem_ne_nil (l : List Str) (x : Str) (hx : x ∈ uniq l) : x ≠ [] := by
  have h2 : x ∈ l.filter (fun s => !s.isEmpty) := (uniq_sublist l).subset hx
  have h3 := (List.mem_filter.mp h2).2
  intro hnil
  subst hnil
  simp at h3

theorem firstSeenDedup_cons (x : Str) (xs : List Str) :
    firstSeenDedup (x :: xs) = x :: firstSeenDedup (xs.filter (fun y => y ≠ x)) := by
  rw [firstSeenDedup]

theorem uniqAux_eq_firstSeenDedup : ∀ (l seen : List Str),
    uniqAux seen l = firstSeenDedup (l.filter (fun y => y ∉ seen)) := by
  intro l
  induction l with
  | nil => intro seen; simp [uniqAux, firstSeenDedup]
  | cons x xs ih =>
    intro seen
    by_cases hx : x ∈ seen
    · have hd : (decide (x ∉ seen)) = false := by simp [hx]
      simp only [uniqAux, if_pos hx, List.filter_cons, hd, Bool.false_eq_true, if_false]
      exact ih seen
    · have hd : (decide (x ∉ seen)) = true := by simp [hx]
      simp only [uniqAux, if_neg hx, List.filter_cons, hd, if_true]
      rw [firstSeenDedup_cons, List.filter_filter, ih (x :: seen)]
      congr 1
      apply congrArg firstSeenDedup
      apply List.filter_congr
      intro y _
      by_cases h1 : y = x <;> by_cases h2 : y ∈ seen <;> simp [h1, h2]

theorem uniq_eq_firstSeenDedup (l : List Str) :
    uniq l = firstSeenDedup (l.filter (fun s => !s.isEmpty)) := by
  have h := uniqAux_eq_firstSeenDedup (l.filter (fun s => !s.isEmpty)) []
  simpa using h

theorem replaceAllStr_no_match (re : RE) (repl s : Str) (h : matchAll re s = []) :
    replaceAllStr re repl s = s := by
  unfold replaceAllStr
  rw [h]
  simp [spliceAll]

theorem applyNameMasks_single_no_match (t n : Str) (h : matchAll (nameRE n) t = []) :
    applyNameMasks [n] t = t := by
  unfold applyNameMasks
  simp only [List.foldl_cons, List.foldl_nil]
  by_cases hn : n.isEmpty = true
  · rw [if_pos hn]
  · rw [if_neg hn]
    exact replaceAllStr_no_match _ _ _ h

theorem chunks4_mem_len : ∀ (l : Str), ∀ ch ∈ chunks4 l, ch.length ≤ 4
  | [] => by intro ch hch; simp [chunks4] at hch
  | [a] => by intro ch hch; simp [chunks4] at hch; subst hch; simp
  | [a, b] => by intro ch hch; simp [chunks4] at hch; subst hch; simp
  | [a, b, c] => by intro ch hch; simp [chunks4] at hch; subst hch; simp
  | a :: b :: c :: d :: rest => by
    intro ch hch
    simp only [chunks4, List.mem_cons] at hch
    rcases hch with rfl | hch
    · simp
    · exact chunks4_mem_len rest ch hch

theorem nibbleFold_lt : ∀ (l : Str) (a : Nat), List.foldl nibbleStep a l < (a + 1) * 2 ^ l.length := by
  intro l
  induction l with
  | nil => intro a; simp
  | cons c cs ih =>
    intro a
    have h2 : nibbleStep a c + 1 ≤ 2 * (a + 1) := by unfold nibbleStep; split <;> omega
    calc List.foldl nibbleStep a (c :: cs) < (nibbleStep a c + 1) * 2 ^ cs.length := ih _
      _ ≤ (2 * (a + 1)) * 2 ^ cs.length := Nat.mul_le_mul_right _ h2
      _ = (a + 1) * 2 ^ (c :: cs).length := by rw [List.length_cons, pow_succ]; ring

theorem nibbleVal_lt (ch : Str) (h : ch.length ≤ 4) : nibbleVal ch < 16 := by
  have h1 := nibbleFold_lt ch 0
  have h2 : (2 : Nat) ^ ch.length ≤ 2 ^ 4 := Nat.pow_le_pow_right (by omega) h
  simp only [nibbleVal]
  calc List.foldl nibbleStep 0 ch < 1 * 2 ^ ch.length := by simpa using h1
    _ ≤ 16 := by simpa using h2

theorem hexDigitChar_mem (n : Nat) (h : n < 16) : hexDigitChar n ∈ ( "0123456789abcdef").toList := by
  interval_cases n <;> decide

theorem binToHex_length (bits : Str) : (binToHex bits).length = 16 := by
  simp only [binToHex, List.length_append, List.length_replicate, List.length_take]
  omega

theorem binToHex_mem_hex (bits : Str) (c : Char) (hc : c ∈ binToHex bits) :
    c ∈ ( "0123456789abcdef").toList := by
  simp only [binToHex] at hc
  rcases List.mem_append.mp hc with h | h
  · have h0 := List.eq_of_mem_replicate h
    subst h0
    decide
  · have h2 : c ∈ (chunks4 (padEnd4 bits)).map (fun ch => hexDigitChar (nibbleVal ch)) :=
      List.take_subset 16 _ h
    rcases List.mem_map.mp h2 with ⟨ch, hch, rfl⟩
    exact hexDigitChar_mem _ (nibbleVal_lt ch (chunks4_mem_len _ ch hch))

/-! ## Claim theorems -/

/-- C2: in the perceptual hash, the threshold median is computed over exactly
the 63 coefficients of the top-left 8 x 8 DCT block excluding the DC term at
position (0,0), yet a bit is emitted for all 64 coefficients of the block
including the DC term — bit 1 if and only if the coefficient is strictly
greater than that median — in row-major order. -/
theorem phash_median_excludes_dc_bit_includes_dc (dct : Nat → Nat → ℚ) :
    ((phashCoeffs dct).drop 1).length = 63
    ∧ (phashCoeffs dct).drop 1 =
        ((List.range 8).map (fun y => (List.range 8).filterMap
          (fun x => if y = 0 ∧ x = 0 then none else some (dct y x)))).flatten
    ∧ (phashBits dct).length = 64
    ∧ phashBits dct =
        ((List.range 8).map (fun y => (List.range 8).map
          (fun x => decide (medianOf ((phashCoeffs dct).drop 1) < dct y x)))).flatten := by
  refine ⟨rfl, rfl, rfl, rfl⟩

/-- C7: for every transformed input grid, the hash field returned by
phashImage is a string of exactly 16 lowercase hexadecimal characters,
accompanied by algo "phash-dct-8x8" and size 64. -/
theorem phash_hex_shape (dct : Nat → Nat → ℚ) :
    (phashImage dct).hash.length = 16
    ∧ (∀ c ∈ (phashImage dct).hash, c ∈ ( "0123456789abcdef").toList)
    ∧ (phashImage dct).algo = ( "phash-dct-8x8").toList
    ∧ (phashImage dct).size = 64 := by
  refine ⟨binToHex_length _, ?_, rfl, rfl⟩
  intro c hc
  exact binToHex_mem_hex _ c hc

/-- C7 witness: the shape facts instantiated on the all-zero matrix. -/
theorem phash_hex_shape_witness : '0' ∈ ( "0123456789abcdef").toList :=
  (phash_hex_shape (fun _ _ => 0)).2.1 '0' (by decide)

/-- C8: no category array of the entity set returned by extractEntities
contains a repeated value, and values appear in first-seen insertion order:
every category is Nodup, and uniq equals the specification-side
first-seen deduplication of the non-empty source values (an in-order
subsequence of them), exercised on a source with repeated values whose
first-seen order differs from its last-occurrence order, both on uniq
itself and on a full extraction with a repeated email. -/
theorem extract_dedup_order :
    (∀ t : Option Str,
      (extractEntities t).emails.Nodup ∧ (extractEntities t).phones.Nodup ∧
      (extractEntities t).handles.Nodup ∧ (extractEntities t).names.Nodup)
    ∧ (∀ (l : List Str), (uniq l).Nodup
        ∧ List.Sublist (uniq l) (l.filter (fun s => !s.isEmpty))
        ∧ uniq l = firstSeenDedup (l.filter (fun s => !s.isEmpty)))
    ∧ uniq [( "b").toList, ( "a").toList, ( "b").toList, ( "c").toList, ( "a").toList]
        = [( "b").toList, ( "a").toList, ( "c").toList]
    ∧ (extractEntities (some ( "b@x.co a@y.co b@x.co").toList)).emails
        = [( "b@x.co").toList, ( "a@y.co").toList] := by
  refine ⟨?_, ?_, rfl, rfl⟩
  · intro t
    exact ⟨uniq_nodup _, uniq_nodup _, uniq_nodup _, uniq_nodup _⟩
  · intro l
    exact ⟨uniq_nodup l, uniq_sublist l, uniq_eq_firstSeenDedup l⟩

/-- C9: extractEntities totalises over missing, empty and arbitrary text —
on missing or empty input all four category arrays are empty, and every
value it ever returns is a non-empty string. -/
theorem extract_graceful :
    extractEntities none = ⟨[], [], [], []⟩
    ∧ extractEntities (some []) = ⟨[], [], [], []⟩
    ∧ ∀ t : Option Str,
        (∀ x ∈ (extractEntities t).emails, x ≠ []) ∧
        (∀ x ∈ (extractEntities t).phones, x ≠ []) ∧
        (∀ x ∈ (extractEntities t).handles, x ≠ []) ∧
        (∀ x ∈ (extractEntities t).names, x ≠ []) := by
  refine ⟨rfl, rfl, ?_⟩
  intro t
  exact ⟨fun x hx => uniq_mem_ne_nil _ x hx, fun x hx => uniq_mem_ne_nil _ x hx,
         fun x hx => uniq_mem_ne_nil _ x hx, fun x hx => uniq_mem_ne_nil _ x hx⟩

/-- C9 witness: the non-emptiness fact instantiated on a concrete extraction. -/
theorem extract_graceful_witness : ( "a@b.co").toList ≠ [] :=
  (extract_graceful.2.2 (some ( "a@b.co").toList)).1 (( "a@b.co").toList) (by decide)

/-- C10: in normal mode the safe_entities returned by redactContent carries
no names field at all — supplied names are silently dropped — while in
strict mode it carries exactly the masked names of the supplied list. -/
theorem redact_names_only_in_strict (t : Str) (es : REntities) :
    (redactContent t es RMode.normal).safe_entities.names = none
    ∧ (redactContent t es RMode.strict).safe_entities.names
        = Option.map (fun l => (uniq l).map maskName) es.names := by
  exact ⟨rfl, rfl⟩

/-- C1: the redaction guarantee fails on a handle that is not preceded by
start-of-text or white space: with text "(@username)" and that same handle
in the entity set, redactText leaves the text unchanged, so the full
unmasked handle appears in safe_text even though safe_entities masks it. -/
theorem redact_handle_boundary_leak :
    (redactContent ( "(@username)").toList
        ⟨none, none, some [( "@username").toList], none⟩ RMode.strict).safe_text
      = ( "(@username)").toList
    ∧ List.IsInfix (( "@username").toList)
        ((redactContent ( "(@username)").toList
          ⟨none, none, some [( "@username").toList], none⟩ RMode.strict).safe_text)
    ∧ (redactContent ( "(@username)").toList
        ⟨none, none, some [( "@username").toList], none⟩ RMode.strict).safe_entities.handles
      = some [( "@u*******").toList] := by
  refine ⟨rfl, by decide, rfl⟩

/-- C3: redaction is not idempotent on its own output: with the single
word-character name "J" in strict mode, the first pass turns "J" into
"J***" and the second pass matches the word-bounded "J" of the mask again,
producing "J******". -/
theorem redact_not_idempotent_single_letter_name :
    (redactContent [ 'J' ] ⟨none, none, none, some [[ 'J' ]]⟩ RMode.strict).safe_text
      = ( "J***").toList
    ∧ (redactContent ((redactContent [ 'J' ] ⟨none, none, none, some [[ 'J' ]]⟩ RMode.strict).safe_text)
        ⟨none, none, none, some [[ 'J' ]]⟩ RMode.strict).safe_text
      = ( "J******").toList
    ∧ (redactContent ((redactContent [ 'J' ] ⟨none, none, none, some [[ 'J' ]]⟩ RMode.strict).safe_text)
        ⟨none, none, none, some [[ 'J' ]]⟩ RMode.strict).safe_text
      ≠ (redactContent [ 'J' ] ⟨none, none, none, some [[ 'J' ]]⟩ RMode.strict).safe_text := by
  refine ⟨rfl, rfl, by decide⟩

/-- C4: in strict mode every case-insensitive word-boundary occurrence of a
supplied name is replaced by its per-word initial-letter mask while
capitalized pairs outside the name list stay untouched; the name is matched
literally (its regex metacharacters are escaped); a name without a match in
the text leaves the text unchanged. -/
theorem strict_name_masking :
    redactText ( "Jane Doe met Bob Smith and jane doe").toList RMode.strict [( "Jane Doe").toList]
      = ( "J*** D*** met Bob Smith and J*** D***").toList
    ∧ redactText ( "JxD waved").toList RMode.strict [( "J.D").toList] = ( "JxD waved").toList
    ∧ ∀ t n : Str, matchAll (nameRE n) t = [] → applyNameMasks [n] t = t := by
  refine ⟨rfl, rfl, fun t n h => applyNameMasks_single_no_match t n h⟩

/-- C4 witness: a text without the supplied name is returned unchanged. -/
theorem strict_name_masking_witness :
    applyNameMasks [( "Jane Doe").toList] ( "Alice Brown waved").toList
      = ( "Alice Brown waved").toList :=
  strict_name_masking.2.2 (( "Alice Brown waved").toList) (( "Jane Doe").toList) (by decide)

/-- C5: phone extraction accepts a candidate exactly when its digit count is
between 7 and 16 inclusive, normalizes to the bare digits with a leading
plus exactly when the match started with one, and on
"Call +1 212-555-1234 now" extracts the single phone "+12125551234". -/
theorem phone_plausibility_rules :
    (∀ raw : Str,
      plausiblyPhone raw ≠ none ↔ (7 ≤ (onlyDigits raw).length ∧ (onlyDigits raw).length ≤ 16))
    ∧ (extractEntities (some ( "Call +1 212-555-1234 now").toList)).phones
        = [( "+12125551234").toList]
    ∧ ∀ raw : Str, (∀ c, raw.head? = some c → isJsSpace c = false) →
        plausiblyPhone raw =
          if 7 ≤ (onlyDigits raw).length ∧ (onlyDigits raw).length ≤ 16
          then some ((if raw.head? = some '+' then [ '+' ] else []) ++ onlyDigits raw)
          else none := by
  refine ⟨?_, rfl, ?_⟩
  · intro raw
    simp only [plausiblyPhone]
    split
    · rename_i h
      simp only [ne_eq, not_true_eq_false, false_iff]
      omega
    · rename_i h
      push_neg at h
      constructor
      · intro _
        exact ⟨by omega, by omega⟩
      · intro _
        simp
  · intro raw hhead
    have hdw : raw.dropWhile isJsSpace = raw := by
      cases raw with
      | nil => rfl
      | cons c cs =>
        have hc := hhead c rfl
        simp [List.dropWhile, hc]
    simp only [plausiblyPhone, hdw]
    split
    · rename_i h
      have hne : ¬(7 ≤ (onlyDigits raw).length ∧ (onlyDigits raw).length ≤ 16) := by omega
      rw [if_neg hne]
    · rename_i h
      push_neg at h
      rw [if_pos h]

/-- C5 witness: the characterization instantiated on the matched candidate
"+1 212-555-1234". -/
theorem phone_plausibility_rules_witness :
    plausiblyPhone ( "+1 212-555-1234").toList =
      if 7 ≤ (onlyDigits ( "+1 212-555-1234").toList).length
          ∧ (onlyDigits ( "+1 212-555-1234").toList).length ≤ 16
      then some ((if ( "+1 212-555-1234").toList.head? = some '+' then [ '+' ] else [])
                  ++ onlyDigits ( "+1 212-555-1234").toList)
      else none :=
  phone_plausibility_rules.2.2 (( "+1 212-555-1234").toList)
    (by
      intro c hc
      rw [show (( "+1 212-555-1234").toList).head? = some '+' from rfl] at hc
      cases hc
      rfl)

/-- C6: on "Contact Jane at jane.doe@example.com or @janed" extraction
returns exactly the email and the handle of the scenario, "Jane" is not
among the names, and for every text the handle pass runs on the text with
every email-shaped span blanked out. -/
theorem email_handle_scenario :
    (extractEntities (some ( "Contact Jane at jane.doe@example.com or @janed").toList)).emails
      = [( "jane.doe@example.com").toList]
    ∧ (extractEntities (some ( "Contact Jane at jane.doe@example.com or @janed").toList)).handles
      = [( "@janed").toList]
    ∧ ( "Jane").toList ∉ (extractEntities (some ( "Contact Jane at jane.doe@example.com or @janed").toList)).names
    ∧ ∀ t : Str, (extractEntities (some t)).handles
        = uniq ((matchAll HANDLE_RE (replaceFn EMAIL_RE_X (fun _ _ => [ ' ' ]) t)).filterMap
            (fun m => normalizeHandle (capStr (replaceFn EMAIL_RE_X (fun _ _ => [ ' ' ]) t) m.2.2 2))) := by
  refine ⟨rfl, rfl, by decide, fun t => rfl⟩
